import Mathlib

/-!
Verification of the `convention25` host-side motion controller.

This file shallowly embeds the parts of the repository that the verified
claims are about:

* `src/sizing.py` — millimetre distances and the step conversion;
* `src/slicer/optimizer/colinear_opt.py` — the collinearity merge pass;
* `src/slicer/optimizer/sort_tool_opt.py` — the tool grouping pass;
* `src/slicer/optimizer/sort_path_opt.py` — the greedy path reordering pass;
* `src/emergency_trap.py` — the latched emergency stop;
* `src/printer.py` — the motion scheduler (`Printer.ingress_command` and the
  synthetic retraction / priming moves).

Python integers become `Int`, exact integer-valued float arithmetic becomes
`Rat` where the code only ever manipulates integer millimetre coordinates
(the optimizer passes), and genuinely real-valued quantities (π, square
roots, trigonometry in the scheduler) become `Real`.  Python's `int(x)`
truncation toward zero is modelled by `pyint`.
-/

namespace Convention25

/-! ## src/sizing.py -/

/-- Python `int(x)` on a float: truncation toward zero. -/
noncomputable def pyint (x : ℝ) : ℤ :=
  if 0 ≤ x then ⌊x⌋ else ⌈x⌉

/-- `worm_module = 1.5` (src/sizing.py line 8). -/
noncomputable def worm_module : ℝ := 1.5

/-- `worm_lead = worm_module * pi` (src/sizing.py line 9). -/
noncomputable def worm_lead : ℝ := worm_module * Real.pi

/-- `Distance`: an integer number of millimetres (src/sizing.py lines 11-16).
The constructor's `cm` argument is always combined into `mm`, so the state is
just `mm`. -/
structure Distance where
  mm : ℤ
deriving DecidableEq, Repr

/-- `Distance.to_steps` (src/sizing.py line 34):
`int((self.mm / worm_lead) * steps_per_rotation * gear_ratio)`.
The Python default for `steps_per_rotation` is `200`; callers in this file
pass it explicitly. -/
noncomputable def Distance.to_steps (d : Distance) (gear_ratio : ℝ)
    (steps_per_rotation : ℤ) : ℤ :=
  pyint (((d.mm : ℝ) / worm_lead) * (steps_per_rotation : ℝ) * gear_ratio)

/-! ## The command model (src/printer.py lines 14-40)

`Command` is the closed set of toolpath primitives.  `MoveTo` travels with
the tool disengaged, `ExtrudeTo` draws, `SwitchTool` selects a tool. -/

inductive Command where
  | MoveTo (x y : Distance)
  | ExtrudeTo (x y : Distance)
  | SwitchTool (tool_id : ℤ)
deriving DecidableEq, Repr

namespace Command

/-- Whether a command is a `SwitchTool`. -/
def isSwitchTool : Command → Bool
  | SwitchTool _ => true
  | _ => false

/-- Whether a command is a `MoveTo`. -/
def isMoveTo : Command → Bool
  | MoveTo _ _ => true
  | _ => false

/-- Whether a command is an `ExtrudeTo`. -/
def isExtrudeTo : Command → Bool
  | ExtrudeTo _ _ => true
  | _ => false

/-- The tool id of a `SwitchTool` command, if any. -/
def switchId : Command → Option ℤ
  | SwitchTool t => some t
  | _ => none

end Command

open Command

/-! ## src/slicer/optimizer/colinear_opt.py

All coordinates entering this pass are integer millimetres, so the float
arithmetic of the source is exact; we model the points as pairs of
rationals (`complex(x, y)` in the source, with `.1` as the real and `.2`
as the imaginary part) so that the tolerance comparison stays exact and
decidable. -/

/-- `is_collinear` (colinear_opt.py lines 4-11): signed-area test
`abs((p2.imag - p1.imag) * (p3.real - p2.real) - (p2.real - p1.real) * (p3.imag - p2.imag)) < 1e-6`. -/
def is_collinear (p1 p2 p3 : ℚ × ℚ) : Bool :=
  |(p2.2 - p1.2) * (p3.1 - p2.1) - (p2.1 - p1.1) * (p3.2 - p2.2)| < 1 / 1000000

/-- Loop state of `optimize_colinear` (colinear_opt.py lines 28-39).
`acc` holds `optimized_commands` in reverse (most recent first), so that
the source's reads and writes of `optimized_commands[-1]` are reads and
writes of `acc`'s head. -/
structure ColState where
  acc : List Command
  current_x : ℚ
  current_y : ℚ
  extrude_start_x : ℚ
  extrude_start_y : ℚ
  is_extruding : Bool
deriving DecidableEq, Repr

/-- One iteration of the loop of `optimize_colinear`
(colinear_opt.py lines 41-82). -/
def colStep (s : ColState) (c : Command) : ColState :=
  match c with
  | .ExtrudeTo x y =>
    -- lines 45-49: on the first ExtrudeTo of a run, record the run start
    let s :=
      if s.is_extruding then s
      else { s with extrude_start_x := s.current_x, extrude_start_y := s.current_y,
                    is_extruding := true }
    match s.acc.head? with
    | some (.ExtrudeTo px py) =>
      -- lines 53-68: two consecutive ExtrudeTo commands; collinearity check
      if is_collinear (s.extrude_start_x, s.extrude_start_y)
          ((px.mm : ℚ), (py.mm : ℚ)) ((x.mm : ℚ), (y.mm : ℚ)) then
        -- line 63: replace the previous ExtrudeTo with one ending at the new point
        { s with acc := .ExtrudeTo x y :: s.acc.tail }
      else
        -- lines 66-68: new sub-segment; the previous endpoint becomes the run start
        { s with acc := .ExtrudeTo x y :: s.acc,
                 extrude_start_x := (px.mm : ℚ), extrude_start_y := (py.mm : ℚ) }
    | _ =>
      -- line 71: first ExtrudeTo after a MoveTo or SwitchTool
      { s with acc := .ExtrudeTo x y :: s.acc }
  | .MoveTo x y =>
    -- lines 72-82: non-extrude command closes the run and updates the position
    { s with acc := .MoveTo x y :: s.acc, is_extruding := false,
             current_x := (x.mm : ℚ), current_y := (y.mm : ℚ),
             extrude_start_x := (x.mm : ℚ), extrude_start_y := (y.mm : ℚ) }
  | .SwitchTool t =>
    { s with acc := .SwitchTool t :: s.acc, is_extruding := false,
             extrude_start_x := s.current_x, extrude_start_y := s.current_y }

/-- Initial state of `optimize_colinear` (colinear_opt.py lines 28-39): the
first command is kept verbatim and provides the initial position if it is a
`MoveTo`. -/
def colInit (c : Command) : ColState :=
  let p : ℚ × ℚ :=
    match c with
    | .MoveTo x y => ((x.mm : ℚ), (y.mm : ℚ))
    | _ => (0, 0)
  { acc := [c], current_x := p.1, current_y := p.2,
    extrude_start_x := p.1, extrude_start_y := p.2, is_extruding := false }

/-- `optimize_colinear` (colinear_opt.py lines 13-84). -/
def optimize_colinear (commands : List Command) : List Command :=
  match commands with
  | [] => []
  | c :: rest => ((rest.foldl colStep (colInit c)).acc).reverse

/-! ## src/slicer/optimizer/sort_tool_opt.py

The Python `defaultdict(list)` keyed by tool id is modelled as an
insertion-ordered association list; `addToBucket` is
`tool_commands[current_tool_id].append(cmd)`. -/

/-- Append `c` to the bucket of key `t`, creating the bucket at the end if
the key is new (the `defaultdict` behaviour of sort_tool_opt.py line 37). -/
def addToBucket : List (ℤ × List Command) → ℤ → Command → List (ℤ × List Command)
  | [], t, c => [(t, [c])]
  | (u, l) :: rest, t, c =>
    if u = t then (u, l ++ [c]) :: rest else (u, l) :: addToBucket rest t c

/-- Bucket lookup: `tool_commands[tool_id]` (sort_tool_opt.py line 47). -/
def bucketGet (bs : List (ℤ × List Command)) (t : ℤ) : List Command :=
  ((bs.find? fun p => p.1 = t).map Prod.snd).getD []

/-- The grouping loop of `optimize_sort_tool` (sort_tool_opt.py lines 30-37):
state is `(tool_commands, current_tool_id)`. -/
def groupStep (s : List (ℤ × List Command) × Option ℤ) (c : Command) :
    List (ℤ × List Command) × Option ℤ :=
  match c with
  | .SwitchTool t => (s.1, some t)
  | c =>
    match s.2 with
    | none => s
    | some t => (addToBucket s.1 t c, s.2)

/-- `optimize_sort_tool` (sort_tool_opt.py lines 13-49): group the commands
by governing tool id, then emit `SwitchTool t` followed by tool `t`'s bucket
for every bucketed key in ascending order (`sorted(tool_commands.keys())`). -/
def optimize_sort_tool (commands : List Command) : List Command :=
  let tool_commands := (commands.foldl groupStep ([], none)).1
  let sorted_tool_ids := (tool_commands.map Prod.fst).insertionSort (· ≤ ·)
  sorted_tool_ids.flatMap fun tool_id =>
    .SwitchTool tool_id :: bucketGet tool_commands tool_id

/-- Reference regrouping for the tool pass, used to state what
`optimize_sort_tool` computes: annotate every non-`SwitchTool` command with
the tool id established by the most recent `SwitchTool` (commands before the
first `SwitchTool` are dropped). -/
def governedCmds : Option ℤ → List Command → List (ℤ × Command)
  | _, [] => []
  | _, .SwitchTool t :: rest => governedCmds (some t) rest
  | none, _ :: rest => governedCmds none rest
  | some t, c :: rest => (t, c) :: governedCmds (some t) rest

/-- The distinct tool ids that govern at least one `MoveTo`/`ExtrudeTo`
command, in order of first use. -/
def usedToolIds (commands : List Command) : List ℤ :=
  ((governedCmds none commands).map Prod.fst).dedup

/-- The commands governed by tool `t`, in input order. -/
def governedBy (commands : List Command) (t : ℤ) : List Command :=
  (governedCmds none commands).filterMap fun p => if p.1 = t then some p.2 else none

/-- The distinct tool ids appearing in `SwitchTool` commands of a list
(the "K distinct tool ids" of the grouping claim). -/
def distinctSwitchIds (commands : List Command) : List ℤ :=
  (commands.filterMap Command.switchId).dedup

/-! ## src/slicer/optimizer/sort_path_opt.py

Points are again exact pairs of rationals (`complex(cmd.x.mm, cmd.y.mm)`),
but `calculate_distance` takes a square root, so distances live in `ℝ` and
the greedy selection compares reals. -/

/-- `PathSegment` (sort_path_opt.py lines 6-11). -/
structure PathSegment where
  commands : List Command
  start_point : ℚ × ℚ
  end_point : ℚ × ℚ
deriving DecidableEq, Repr

/-- `get_point` (sort_path_opt.py lines 13-17). -/
def get_point : Command → Option (ℚ × ℚ)
  | .MoveTo x y => some ((x.mm : ℚ), (y.mm : ℚ))
  | .ExtrudeTo x y => some ((x.mm : ℚ), (y.mm : ℚ))
  | _ => none

/-- `calculate_distance` (sort_path_opt.py lines 19-21):
`np.sqrt((p1.real - p2.real)**2 + (p1.imag - p2.imag)**2)`. -/
noncomputable def calculate_distance (p1 p2 : ℚ × ℚ) : ℝ :=
  Real.sqrt (((p1.1 : ℝ) - (p2.1 : ℝ)) ^ 2 + ((p1.2 : ℝ) - (p2.2 : ℝ)) ^ 2)

/-- Close the current segment (sort_path_opt.py lines 46-57 and 64-73):
the start point is the point of the first `MoveTo` in the segment
(`get_point(next((c for c in current_segment if isinstance(c, MoveTo)), None))`),
the end point is the point of its last command; the segment is kept only if
both exist. -/
def closeSegment (paths : List PathSegment) (current : List Command) :
    List PathSegment :=
  if current.isEmpty then paths
  else
    let sp := (current.find? Command.isMoveTo).bind get_point
    let ep := current.getLast?.bind get_point
    match sp, ep with
    | some s, some e => paths ++ [⟨current, s, e⟩]
    | _, _ => paths

/-- The splitting loop of `optimize_sort_path` (sort_path_opt.py lines
41-62): a `SwitchTool` or `MoveTo` closes the current segment and starts a
new one; an `ExtrudeTo` extends the current segment. -/
def splitStep (st : List PathSegment × List Command) (c : Command) :
    List PathSegment × List Command :=
  match c with
  | .SwitchTool _ => (closeSegment st.1 st.2, [c])
  | .MoveTo _ _ => (closeSegment st.1 st.2, [c])
  | _ => (st.1, st.2 ++ [c])

/-- Step 1 of `optimize_sort_path` (sort_path_opt.py lines 40-73): split the
command list into path segments, closing the trailing segment at the end. -/
def splitPaths (commands : List Command) : List PathSegment :=
  let st := commands.foldl splitStep ([], [])
  closeSegment st.1 st.2

/-- The selection loop of `optimize_sort_path` (sort_path_opt.py lines
87-103): scan the unvisited segments for the one whose start point is
strictly closest to `last_point` (first found wins ties), and remove it.
Returns the chosen segment together with the remaining unvisited list. -/
noncomputable def selectClosest (last_point : ℚ × ℚ) :
    List PathSegment → Option (PathSegment × List PathSegment)
  | [] => none
  | s :: rest =>
    match selectClosest last_point rest with
    | none => some (s, [])
    | some (t, rest') =>
      if calculate_distance last_point t.start_point <
          calculate_distance last_point s.start_point then
        some (t, s :: rest')
      else
        some (s, rest)

/-- The greedy `while unvisited_paths` loop (sort_path_opt.py lines 87-103),
run with fuel; `optimize_sort_path` supplies fuel equal to the number of
unvisited segments, which is exactly the number of iterations the source
loop performs. -/
noncomputable def greedyLoop : ℕ → (ℚ × ℚ) → List PathSegment → List PathSegment
  | 0, _, _ => []
  | _ + 1, _, [] => []
  | fuel + 1, last_point, unvisited =>
    match selectClosest last_point unvisited with
    | none => []
    | some (t, rest) => t :: greedyLoop fuel t.end_point rest

/-- Step 2 of `optimize_sort_path` (sort_path_opt.py lines 75-103): start
with the first segment, then repeatedly visit the unvisited segment with the
closest start point. -/
noncomputable def greedyOrder (paths : List PathSegment) : List PathSegment :=
  match paths with
  | [] => []
  | p :: rest => p :: greedyLoop rest.length p.end_point rest

/-- `optimize_sort_path` (sort_path_opt.py lines 23-110): split, reorder
greedily, and concatenate the segments' commands. -/
noncomputable def optimize_sort_path (commands : List Command) : List Command :=
  (greedyOrder (splitPaths commands)).flatMap PathSegment.commands

/-- Total boundary-to-boundary travel distance of a segment order: the sum,
over consecutive visited segments, of the Euclidean distance from one
segment's end point to the next segment's start point (the quantity of the
greedy-reordering claim). -/
noncomputable def segTravel : List PathSegment → ℝ
  | [] => 0
  | [_] => 0
  | a :: b :: rest => calculate_distance a.end_point b.start_point + segTravel (b :: rest)

/-- Local greedy optimality of a visiting order, starting from the point
`e`: each visited segment's start is at least as close to the previous end
point as the start of every segment visited later. -/
def LocallyGreedy : (ℚ × ℚ) → List PathSegment → Prop
  | _, [] => True
  | e, s :: rest =>
    (∀ u ∈ s :: rest, calculate_distance e s.start_point ≤ calculate_distance e u.start_point) ∧
    LocallyGreedy s.end_point rest

/-- `LocallyGreedy` for a whole visiting order: the first segment is not
chosen (the source starts with `paths[0]`), every later one is the closest
remaining. -/
def GreedyFromFirst : List PathSegment → Prop
  | [] => True
  | s :: rest => LocallyGreedy s.end_point rest

/-! ## src/emergency_trap.py

`EmergencyStop` observes the safety switch.  `set_value` (lines 14-19)
stores the switch value; on a stop-indicating value it broadcasts a halt,
sets the `_trap` latch and raises.  `trap` (lines 21-23) raises exactly when
the latch is set.  The hardware side (the swarm switch base class and the
halt broadcast) is external to this core; the state we model is the parsed
boolean value and the latch. -/

/-- The latched emergency-stop state: the switch value last reported by
`set_value` and the `_trap` latch (emergency_trap.py lines 10-13). -/
structure ESState where
  value : Bool
  trap : Bool
deriving DecidableEq, Repr

/-- Events driving the emergency stop: a value-changed notification from
the safety switch (`set_value` with the parsed stop-indicating boolean), or
a `trap()` poll. -/
inductive ESEvent where
  | setValue (stopIndicating : Bool)
  | check
deriving DecidableEq, Repr

/-- One event step: returns the next state and whether the call raised
`EmergencyStopException`.  `setValue true` sets the latch and raises
(emergency_trap.py lines 16-19); `check` raises iff the latch is set
(lines 21-23) and never changes the state. -/
def esStep (s : ESState) : ESEvent → ESState × Bool
  | .setValue v =>
    if v then ({ value := v, trap := true }, true)
    else ({ s with value := v }, false)
  | .check => (s, s.trap)

/-- The freshly initialised trap (emergency_trap.py lines 10-12). -/
def esInit : ESState := { value := false, trap := false }

/-- Run a sequence of events from a state. -/
def esRun (s : ESState) (events : List ESEvent) : ESState :=
  events.foldl (fun s e => (esStep s e).1) s

/-- Whether a `trap()` poll raises in state `s`. -/
def esCheckRaises (s : ESState) : Bool := (esStep s .check).2

/-! ## src/printer.py — the motion scheduler

Motors are modelled by name tags (`x_axis`, `y_axis`, `tools[i]`); the
`FtSwarmStepper` proxies are external hardware handles with no scheduler
state of their own. -/

/-- The actuator a `MotorConfiguration` drives. -/
inductive Motor where
  | x
  | y
  | tool (index : ℕ)
deriving DecidableEq, Repr

/-- `MotorConfiguration` (printer.py lines 49-53): actuator, signed step
count, speed (both stored as Python ints by `ingress_command`). -/
structure MotorConfiguration where
  motor : Motor
  steps : ℤ
  speed : ℤ
deriving DecidableEq, Repr

/-- `TimedControlPoint` (printer.py lines 61-68). -/
structure TimedControlPoint where
  x : MotorConfiguration
  y : MotorConfiguration
  tool : Option MotorConfiguration
  start_time : ℝ
  duration : ℝ
  is_retraction : Bool

/-- `ControlPoint` (printer.py lines 55-59). -/
structure ControlPoint where
  x : MotorConfiguration
  y : MotorConfiguration
  tool : Option MotorConfiguration

/-- `ToolTiming` (printer.py lines 42-47). -/
structure ToolTiming where
  lead_time : ℝ
  lag_time : ℝ
  retraction_distance : ℤ
  retraction_speed : ℤ

/-- The scheduler-relevant state of `Printer` (printer.py lines 70-91).
`speed` is set to `4000` in `__init__`; `flow_rate` comes from the
configuration record. -/
structure Printer where
  step_x : ℤ
  step_y : ℤ
  speed : ℤ
  tool : ℕ
  flow_rate : ℝ
  tool_timing : ToolTiming
  control_points : List ControlPoint
  timed_control_points : List TimedControlPoint
  last_was_extrusion : Bool

/-- A freshly constructed `Printer` (printer.py lines 70-91). -/
def Printer.fresh (flow_rate : ℝ) (timing : ToolTiming) : Printer :=
  { step_x := 0, step_y := 0, speed := 4000, tool := 0, flow_rate := flow_rate,
    tool_timing := timing, control_points := [], timed_control_points := [],
    last_was_extrusion := false }

/-- `sum(cp.duration for cp in self.timed_control_points)`
(printer.py lines 166, 189, 212). -/
def sumDur (l : List TimedControlPoint) : ℝ :=
  (l.map TimedControlPoint.duration).sum

/-- `math.atan2 y x`, via the complex argument. -/
noncomputable def atan2 (y x : ℝ) : ℝ := Complex.arg ⟨x, y⟩

/-- `Printer._add_retraction_move` (printer.py lines 180-201): append a
tool-only point moving `-retraction_distance` steps at `retraction_speed`,
flagged `is_retraction`, with no axis motion. -/
noncomputable def Printer.add_retraction_move (p : Printer) : Printer :=
  let retraction_config : MotorConfiguration :=
    ⟨Motor.tool p.tool, -p.tool_timing.retraction_distance, p.tool_timing.retraction_speed⟩
  let current_time := sumDur p.timed_control_points
  let retraction_time : ℝ :=
    (|p.tool_timing.retraction_distance| : ℤ) / (p.tool_timing.retraction_speed : ℝ)
  { p with timed_control_points := p.timed_control_points ++
      [⟨⟨Motor.x, 0, 0⟩, ⟨Motor.y, 0, 0⟩, some retraction_config,
        current_time, retraction_time, true⟩] }

/-- `Printer._add_prime_move` (printer.py lines 203-224): append a tool-only
point moving `+retraction_distance` steps at `retraction_speed`, flagged
`is_retraction` (note: `prime_time` has no `abs`, line 213). -/
noncomputable def Printer.add_prime_move (p : Printer) : Printer :=
  let prime_config : MotorConfiguration :=
    ⟨Motor.tool p.tool, p.tool_timing.retraction_distance, p.tool_timing.retraction_speed⟩
  let current_time := sumDur p.timed_control_points
  let prime_time : ℝ :=
    (p.tool_timing.retraction_distance : ℝ) / (p.tool_timing.retraction_speed : ℝ)
  { p with timed_control_points := p.timed_control_points ++
      [⟨⟨Motor.x, 0, 0⟩, ⟨Motor.y, 0, 0⟩, some prime_config,
        current_time, prime_time, true⟩] }

/-- The mirrored x target of an ingress call:
`target_x = -x.to_steps(1)` (printer.py line 123). -/
noncomputable def targetX (x : Distance) : ℤ := -(x.to_steps 1 200)

/-- The y target of an ingress call: `target_y = y.to_steps(1)`
(printer.py line 124). -/
noncomputable def targetY (y : Distance) : ℤ := y.to_steps 1 200

/-- `Printer.ingress_command` (printer.py lines 122-178).

The float trigonometry is modelled exactly over `ℝ`: `math.atan2`,
`math.cos`, `math.sin` become their real counterparts and `int(...)`
becomes `pyint`.  `int(abs(dx))` is written `|dx|` since `dx` is an exact
integer.  Note that the position (`step_x`, `step_y`) is updated before the
zero-distance early return, while `last_was_extrusion` is updated only after
a motion point is appended. -/
noncomputable def Printer.ingress_command (p : Printer) (x y : Distance)
    (should_extrude : Bool) : Printer :=
  let target_x := targetX x
  let target_y := targetY y
  let dx : ℤ := target_x - p.step_x
  let dy : ℤ := target_y - p.step_y
  -- lines 129-131: add retraction if switching from extrusion to travel
  let p1 := if p.last_was_extrusion && !should_extrude then p.add_retraction_move else p
  -- lines 133-135: add prime if switching from travel to extrusion
  let p2 := if !p1.last_was_extrusion && should_extrude then p1.add_prime_move else p1
  -- lines 137-138
  let p3 := { p2 with step_x := target_x, step_y := target_y }
  -- lines 140-142
  let distance : ℝ := Real.sqrt ((dx : ℝ) ^ 2 + (dy : ℝ) ^ 2)
  if distance = 0 then p3
  else
    -- lines 144-151
    let angle_rad := atan2 (dy : ℝ) (dx : ℝ)
    let vx := (p3.speed : ℝ) * Real.cos angle_rad
    let vy := (p3.speed : ℝ) * Real.sin angle_rad
    let time_x := if vx ≠ 0 then |(dx : ℝ)| / |vx| else 0
    let time_y := if vy ≠ 0 then |(dy : ℝ)| / |vy| else 0
    let movement_time := max time_x time_y
    -- lines 153-159
    let tool_config : Option MotorConfiguration :=
      if should_extrude then
        let steps := pyint (|distance| * p3.flow_rate)
        let tool_speed :=
          max |(if movement_time > 0 then pyint ((steps : ℝ) / movement_time) else 0)| 50
        some ⟨Motor.tool p3.tool, steps, tool_speed⟩
      else none
    -- lines 161-162
    let x_config : MotorConfiguration := ⟨Motor.x, |dx|, pyint |vx|⟩
    let y_config : MotorConfiguration := ⟨Motor.y, |dy|, pyint |vy|⟩
    -- lines 165-178
    let current_time := sumDur p3.timed_control_points
    { p3 with
        timed_control_points := p3.timed_control_points ++
          [⟨x_config, y_config, tool_config, current_time, movement_time, false⟩],
        control_points := p3.control_points ++ [⟨x_config, y_config, tool_config⟩],
        last_was_extrusion := should_extrude }

/-- One ingress call: target coordinates and the draw flag. -/
structure IngressCall where
  x : Distance
  y : Distance
  should_extrude : Bool

/-- Run a sequence of ingress calls on a printer. -/
noncomputable def Printer.ingressRun (p : Printer) (calls : List IngressCall) : Printer :=
  calls.foldl (fun q c => q.ingress_command c.x c.y c.should_extrude) p

end Convention25

namespace Convention25

/-! ## Supporting lemmas and claim theorems -/

/-- The `_trap` latch after a run: set iff it was already set or a
stop-indicating `set_value` occurred. -/
theorem esRun_trap (events : List ESEvent) (s : ESState) :
    (esRun s events).trap = (s.trap || decide (ESEvent.setValue true ∈ events)) := by
  induction events generalizing s with
  | nil => simp [esRun]
  | cons e rest ih =>
    rw [show esRun s (e :: rest) = esRun (esStep s e).1 rest from rfl, ih]
    cases e with
    | check => simp [esStep, List.mem_cons]
    | setValue v =>
      cases v <;> simp [esStep, List.mem_cons]

/-- Claim C7: on a freshly initialised trap, `check()` raises if and only if
a stop-indicating switch value has previously set the latch; in particular
it never raises before tripping, and once tripped it raises on every
subsequent call regardless of further events (the latch is never
auto-cleared). -/
theorem C7_trap_check_iff_latched (events : List ESEvent) :
    (esCheckRaises (esRun esInit events) = true ↔ ESEvent.setValue true ∈ events) ∧
    (∀ more : List ESEvent, ESEvent.setValue true ∈ events →
      esCheckRaises (esRun esInit (events ++ more)) = true) := by
  constructor
  · simp [esCheckRaises, esStep, esRun_trap, esInit]
  · intro more hmem
    simp [esCheckRaises, esStep, esRun_trap, esInit, hmem]

/-- Witness for C7: after a stop-indicating value, `check()` raises, even
after further benign events. -/
theorem C7_witness :
    esCheckRaises (esRun esInit ([ESEvent.setValue true] ++ [ESEvent.check])) = true :=
  (C7_trap_check_iff_latched [ESEvent.setValue true]).2 [ESEvent.check] (by simp)

/-- `worm_lead` is between 4.71 and 4.725. -/
theorem worm_lead_bounds : (4.71 : ℝ) < worm_lead ∧ worm_lead < 4.725 := by
  have h1 : (3.14 : ℝ) < Real.pi := Real.pi_gt_d2
  have h2 : Real.pi < 3.15 := Real.pi_lt_d2
  constructor <;> (unfold worm_lead worm_module; nlinarith)

/-- Claim C6 counterexample: at 2 mm with gear ratio 1 (and the default 200
steps per rotation), `to_steps` returns 84, while rounding to the nearest
integer would give 85 — the conversion truncates rather than rounds. -/
theorem C6_cex :
    Distance.to_steps ⟨2⟩ 1 200 = 84 ∧
    round (((2 : ℝ) / worm_lead) * 200 * 1) = 85 ∧
    Distance.to_steps ⟨2⟩ 1 200 ≠ round (((2 : ℝ) / worm_lead) * 200 * 1) := by
  obtain ⟨hwl1, hwl2⟩ := worm_lead_bounds
  have hwl0 : (0 : ℝ) < worm_lead := by linarith
  have hv : ((2 : ℝ) / worm_lead) * 200 * 1 = 400 / worm_lead := by ring
  have hv1 : (84.5 : ℝ) ≤ 400 / worm_lead := by
    rw [le_div_iff₀ hwl0]; nlinarith
  have hv2 : (400 : ℝ) / worm_lead < 85 := by
    rw [div_lt_iff₀ hwl0]; nlinarith
  have hfloor : Distance.to_steps ⟨2⟩ 1 200 = 84 := by
    unfold Distance.to_steps pyint
    rw [if_pos (by push_cast; rw [hv]; positivity)]
    rw [Int.floor_eq_iff]
    push_cast
    rw [hv]
    constructor <;> [linarith; linarith]
  have hround : round (((2 : ℝ) / worm_lead) * 200 * 1) = 85 := by
    rw [round_eq, hv, Int.floor_eq_iff]
    push_cast
    constructor <;> [linarith; linarith]
  exact ⟨hfloor, hround, by rw [hfloor, hround]; decide⟩

/-- Claim C6 (amended): the millimetre-to-steps conversion truncates the
value `mm / worm_lead * steps_per_rotation * gear_ratio` toward zero
(Python `int`), so for nonnegative millimetres, gear ratio and steps per
rotation it is the floor of that value, not the nearest integer. -/
theorem C6_to_steps_floor (d : Distance) (gear_ratio : ℝ) (spr : ℤ)
    (hmm : 0 ≤ d.mm) (hgr : 0 ≤ gear_ratio) (hspr : 0 ≤ spr) :
    d.to_steps gear_ratio spr = ⌊((d.mm : ℝ) / worm_lead) * (spr : ℝ) * gear_ratio⌋ := by
  have hwl0 : (0 : ℝ) < worm_lead := by
    have := worm_lead_bounds.1
    linarith
  unfold Distance.to_steps pyint
  rw [if_pos]
  apply mul_nonneg (mul_nonneg _ _) hgr
  · positivity
  · exact_mod_cast hspr

/-- Witness for the amended C6 at 2 mm, gear ratio 1, 200 steps. -/
theorem C6_witness :
    Distance.to_steps ⟨2⟩ 1 200 = ⌊((2 : ℝ) / worm_lead) * 200 * 1⌋ := by
  have h := C6_to_steps_floor ⟨2⟩ 1 200 (by norm_num) (by norm_num) (by norm_num)
  simpa using h

/-- The tail of a list, reversed, is a sublist of the reversed list
(dropping the most recently pushed element). -/
theorem tail_reverse_sublist {α : Type} (l : List α) : l.tail.reverse.Sublist l.reverse := by
  cases l with
  | nil => simp
  | cons a t => simpa using List.sublist_append_left t.reverse [a]

/-- Every iteration of the `optimize_colinear` loop pushes the current
input command, either on top of the accumulator (append) or in place of
its head (merge). -/
theorem colStep_acc (s : ColState) (c : Command) :
    (colStep s c).acc = c :: s.acc ∨ (colStep s c).acc = c :: s.acc.tail := by
  cases c with
  | MoveTo x y => exact Or.inl rfl
  | SwitchTool t => exact Or.inl rfl
  | ExtrudeTo x y =>
    cases hext : s.is_extruding <;>
      simp only [colStep, hext, if_true, if_false, Bool.false_eq_true] <;>
      (cases hh : s.acc.head? with
        | none => simp [hh]
        | some d =>
          cases d
          case MoveTo => simp [hh]
          case SwitchTool => simp [hh]
          case ExtrudeTo =>
            simp only [hh]
            split <;> simp [List.tail])

/-- The accumulated output of the `optimize_colinear` loop (and the part of
it below the replaceable head) is always a sublist of the consumed input. -/
theorem foldl_colStep_sublist (rest : List Command) : ∀ s : ColState,
    ((rest.foldl colStep s).acc).reverse.Sublist (s.acc.reverse ++ rest) ∧
    ((rest.foldl colStep s).acc).tail.reverse.Sublist (s.acc.reverse ++ rest) := by
  induction rest with
  | nil =>
    intro s
    refine ⟨by simp, ?_⟩
    simpa using tail_reverse_sublist s.acc
  | cons c rest ih =>
    intro s
    have key : ((colStep s c).acc.reverse ++ rest).Sublist ((s.acc.reverse ++ [c]) ++ rest) := by
      rcases colStep_acc s c with hd | hd
      · rw [hd]; simp
      · rw [hd]
        refine List.Sublist.append ?_ (List.Sublist.refl rest)
        simp only [List.reverse_cons]
        exact (tail_reverse_sublist s.acc).append (List.Sublist.refl [c])
    have h2 := ih (colStep s c)
    rw [List.foldl_cons]
    constructor
    · exact h2.1.trans (by simpa using key)
    · exact h2.2.trans (by simpa using key)

/-- `optimize_colinear` returns a sublist of its input: it never reorders
commands, and its output length is at most its input length. -/
theorem optimize_colinear_sublist (commands : List Command) :
    (optimize_colinear commands).Sublist commands := by
  cases commands with
  | nil => simp [optimize_colinear]
  | cons c rest =>
    have h := (foldl_colStep_sublist rest (colInit c)).1
    simpa [optimize_colinear, colInit] using h

/-- Exact collinearity of `a` and `b` with the run-start point `p`:
the signed area of the triangle `(p, a, b)` is exactly zero. -/
def ExactlyCollinear (p a b : ℚ × ℚ) : Prop :=
  (a.1 - p.1) * (b.2 - p.2) - (a.2 - p.2) * (b.1 - p.1) = 0

instance : ∀ p a b, Decidable (ExactlyCollinear p a b) := by
  intro p a b
  unfold ExactlyCollinear
  infer_instance

/-- The rational point of a coordinate pair. -/
def ptQ (q : Distance × Distance) : ℚ × ℚ := ((q.1.mm : ℚ), (q.2.mm : ℚ))

/-- A draw run: a travel move to `p0` followed by draws to `qs`. -/
def drawRun (p0 : Distance × Distance) (qs : List (Distance × Distance)) :
    List Command :=
  Command.MoveTo p0.1 p0.2 :: qs.map fun q => Command.ExtrudeTo q.1 q.2

/-- Exact collinearity with the run start passes the tolerance test of
`is_collinear`. -/
theorem is_collinear_of_exact (p a b : ℚ × ℚ) (h : ExactlyCollinear p a b) :
    is_collinear p a b = true := by
  unfold ExactlyCollinear at h
  unfold is_collinear
  have hz : (a.2 - p.2) * (b.1 - a.1) - (a.1 - p.1) * (b.2 - a.2) = 0 := by
    linear_combination -h
  rw [hz]
  norm_num

/-- Shorthand for concrete travel commands. -/
def cmdM (x y : ℤ) : Command := Command.MoveTo ⟨x⟩ ⟨y⟩

/-- Shorthand for concrete draw commands. -/
def cmdD (x y : ℤ) : Command := Command.ExtrudeTo ⟨x⟩ ⟨y⟩

/-- The loop state of `optimize_colinear` just after the first draw of a run
starting at `p0` has been appended; `below` is the already-produced output
beneath the run. -/
def midState (below : List Command) (p0 q : Distance × Distance) : ColState :=
  { acc := Command.ExtrudeTo q.1 q.2 :: Command.MoveTo p0.1 p0.2 :: below,
    current_x := (ptQ p0).1, current_y := (ptQ p0).2,
    extrude_start_x := (ptQ p0).1, extrude_start_y := (ptQ p0).2,
    is_extruding := true }

/-- One merge step: a further draw whose endpoint is exactly collinear with
the run start and the previous endpoint replaces the previous draw. -/
theorem colStep_merge (below : List Command) (p0 q r : Distance × Distance)
    (hcoll : ExactlyCollinear (ptQ p0) (ptQ q) (ptQ r)) :
    colStep (midState below p0 q) (Command.ExtrudeTo r.1 r.2) = midState below p0 r := by
  have hc := is_collinear_of_exact (ptQ p0) (ptQ q) (ptQ r) hcoll
  simp [colStep, midState, ptQ] at hc ⊢
  simp [hc]

/-- Folding the draws of an exactly-collinear run merges them all into the
single most recent draw. -/
theorem foldl_colStep_collapse (below : List Command) (p0 : Distance × Distance) :
    ∀ (qs : List (Distance × Distance)) (q : Distance × Distance),
      List.Chain' (fun a b => ExactlyCollinear (ptQ p0) a b) ((q :: qs).map ptQ) →
      (qs.map fun r => Command.ExtrudeTo r.1 r.2).foldl colStep (midState below p0 q) =
        midState below p0 (qs.getLastD q) := by
  intro qs
  induction qs with
  | nil => intro q h; simp
  | cons r rs ih =>
    intro q h
    simp only [List.map_cons, List.chain'_cons] at h
    rw [List.map_cons, List.foldl_cons, colStep_merge below p0 q r h.1,
      ih r (by simp only [List.map_cons]; exact h.2), List.getLastD_cons]

/-- Folding a travel move to `p0` followed by an exactly-collinear draw run
from any loop state appends just the travel move and one draw. -/
theorem foldl_colStep_run (s : ColState) (p0 : Distance × Distance)
    (q : Distance × Distance) (qs : List (Distance × Distance))
    (h : List.Chain' (fun a b => ExactlyCollinear (ptQ p0) a b) ((q :: qs).map ptQ)) :
    (drawRun p0 (q :: qs)).foldl colStep s = midState s.acc p0 (qs.getLastD q) := by
  have hMq : colStep (colStep s (Command.MoveTo p0.1 p0.2)) (Command.ExtrudeTo q.1 q.2) =
      midState s.acc p0 q := by
    simp [colStep, midState, ptQ]
  rw [drawRun, List.map_cons, List.foldl_cons, List.foldl_cons, hMq]
  exact foldl_colStep_collapse s.acc p0 qs q h

/-- Claim C4 (amended): a travel move followed by consecutive draws whose
endpoints are exactly collinear with the run-start point collapses to the
travel move and a single draw ending at the *last* such endpoint (which need
not be the furthest); this also holds for a run at the end of any nonempty
command list; in particular `Move(0,0), Draw(1,0), Draw(2,0)` becomes
`Move(0,0), Draw(2,0)`; and the pass never reorders commands — its output is
a subsequence of its input — so its output length is at most its input
length. -/
theorem C4_collapse_to_last_draw :
    (∀ (p0 q : Distance × Distance) (qs : List (Distance × Distance)),
      List.Chain' (fun a b => ExactlyCollinear (ptQ p0) a b) ((q :: qs).map ptQ) →
      optimize_colinear (drawRun p0 (q :: qs)) =
        [Command.MoveTo p0.1 p0.2,
         Command.ExtrudeTo (qs.getLastD q).1 (qs.getLastD q).2]) ∧
    (∀ (c0 : Command) (rest : List Command) (p0 q : Distance × Distance)
        (qs : List (Distance × Distance)),
      List.Chain' (fun a b => ExactlyCollinear (ptQ p0) a b) ((q :: qs).map ptQ) →
      optimize_colinear ((c0 :: rest) ++ drawRun p0 (q :: qs)) =
        optimize_colinear (c0 :: rest) ++
          [Command.MoveTo p0.1 p0.2,
           Command.ExtrudeTo (qs.getLastD q).1 (qs.getLastD q).2]) ∧
    optimize_colinear [cmdM 0 0, cmdD 1 0, cmdD 2 0] = [cmdM 0 0, cmdD 2 0] ∧
    (∀ commands : List Command, (optimize_colinear commands).Sublist commands) ∧
    (∀ commands : List Command, (optimize_colinear commands).length ≤ commands.length) := by
  have hpure : ∀ (p0 q : Distance × Distance) (qs : List (Distance × Distance)),
      List.Chain' (fun a b => ExactlyCollinear (ptQ p0) a b) ((q :: qs).map ptQ) →
      optimize_colinear (drawRun p0 (q :: qs)) =
        [Command.MoveTo p0.1 p0.2,
         Command.ExtrudeTo (qs.getLastD q).1 (qs.getLastD q).2] := by
    intro p0 q qs h
    have hrun := foldl_colStep_run
      ⟨[], (ptQ p0).1, (ptQ p0).2, (ptQ p0).1, (ptQ p0).2, false⟩ p0 q qs h
    have hinit : colInit (Command.MoveTo p0.1 p0.2) =
        colStep ⟨[], (ptQ p0).1, (ptQ p0).2, (ptQ p0).1, (ptQ p0).2, false⟩
          (Command.MoveTo p0.1 p0.2) := by
      simp [colInit, colStep, ptQ]
    rw [drawRun, List.map_cons] at hrun ⊢
    rw [optimize_colinear, hinit, ← List.foldl_cons, hrun]
    simp [midState]
  refine ⟨hpure, ?_, ?_, optimize_colinear_sublist,
    fun commands => (optimize_colinear_sublist commands).length_le⟩
  · intro c0 rest p0 q qs h
    have hrun := foldl_colStep_run (rest.foldl colStep (colInit c0)) p0 q qs h
    rw [show (c0 :: rest) ++ drawRun p0 (q :: qs) =
        c0 :: (rest ++ drawRun p0 (q :: qs)) from rfl]
    rw [optimize_colinear, List.foldl_append, hrun, optimize_colinear]
    simp [midState]
  · have h := hpure (⟨0⟩, ⟨0⟩) (⟨1⟩, ⟨0⟩) [(⟨2⟩, ⟨0⟩)]
      (by norm_num [ExactlyCollinear, ptQ])
    simpa [drawRun, cmdM, cmdD] using h

/-- Witness for C4: the run `Move(0,0), Draw(1,0), Draw(2,0)` is exactly
collinear and collapses to `Move(0,0), Draw(2,0)`. -/
theorem C4_witness :
    optimize_colinear (drawRun (⟨0⟩, ⟨0⟩) [(⟨1⟩, ⟨0⟩), (⟨2⟩, ⟨0⟩)]) =
      [Command.MoveTo ⟨0⟩ ⟨0⟩, Command.ExtrudeTo ⟨2⟩ ⟨0⟩] :=
  C4_collapse_to_last_draw.1 (⟨0⟩, ⟨0⟩) (⟨1⟩, ⟨0⟩) [(⟨2⟩, ⟨0⟩)]
    (by norm_num [ExactlyCollinear, ptQ])

/-- Claim C4 counterexample: for `Move(0,0), Draw(2,0), Draw(1,0)` — three
points exactly collinear with the run start — the pass produces
`Move(0,0), Draw(1,0)`, ending at the *last* point `(1,0)`, although the
furthest collinear endpoint from the run start is `(2,0)`. -/
theorem C4_cex :
    optimize_colinear [cmdM 0 0, cmdD 2 0, cmdD 1 0] = [cmdM 0 0, cmdD 1 0] ∧
    List.Chain' (fun a b => ExactlyCollinear (ptQ (⟨0⟩, ⟨0⟩)) a b)
      ([((⟨2⟩ : Distance), (⟨0⟩ : Distance)),
        ((⟨1⟩ : Distance), (⟨0⟩ : Distance))].map ptQ) ∧
    ((2 : ℚ) - 0) ^ 2 + ((0 : ℚ) - 0) ^ 2 > ((1 : ℚ) - 0) ^ 2 + ((0 : ℚ) - 0) ^ 2 ∧
    cmdD 1 0 ≠ cmdD 2 0 := by
  refine ⟨?_, ?_, by norm_num, by simp [cmdD]⟩
  · norm_num [optimize_colinear, colStep, colInit, is_collinear, cmdM, cmdD]
  · norm_num [ExactlyCollinear, ptQ]

/-- Claim C5 counterexample: `optimize_colinear` is not idempotent — on
`Move(0,0), Draw(1,0), Draw(1,1), Draw(1,0)` the first pass yields
`Move(0,0), Draw(1,0), Draw(1,0)` (the vertical detour merges into a draw
back to `(1,0)`), and a second pass merges again. -/
theorem C5_cex :
    optimize_colinear (optimize_colinear [cmdM 0 0, cmdD 1 0, cmdD 1 1, cmdD 1 0]) ≠
      optimize_colinear [cmdM 0 0, cmdD 1 0, cmdD 1 1, cmdD 1 0] := by
  norm_num [optimize_colinear, colStep, colInit, is_collinear, cmdM, cmdD]

/-- Claim C5 (amended): `optimize_colinear` is not idempotent in general,
but each application either returns its input unchanged or strictly shortens
it (its output is always a subsequence of its input), so iterating the pass
reaches a fixed point. -/
theorem C5_fixpoint_or_shrink (commands : List Command) :
    optimize_colinear commands = commands ∨
      (optimize_colinear commands).length < commands.length := by
  have h := optimize_colinear_sublist commands
  rcases lt_or_eq_of_le h.length_le with hlt | heq
  · exact Or.inr hlt
  · exact Or.inl (h.eq_of_length heq)

/-- `bucketGet` on a cons cell. -/
theorem bucketGet_cons (v : ℤ) (l : List Command) (rest : List (ℤ × List Command))
    (t : ℤ) :
    bucketGet ((v, l) :: rest) t = if v = t then l else bucketGet rest t := by
  by_cases h : v = t <;> simp [bucketGet, List.find?_cons, h]

/-- `bucketGet` after `addToBucket`: the addressed bucket gains `c` at its
end, every other bucket is unchanged. -/
theorem bucketGet_addToBucket (bs : List (ℤ × List Command)) (u : ℤ) (c : Command)
    (t : ℤ) :
    bucketGet (addToBucket bs u c) t =
      if u = t then bucketGet bs t ++ [c] else bucketGet bs t := by
  induction bs with
  | nil =>
    by_cases hut : u = t <;> simp [addToBucket, bucketGet_cons, bucketGet, hut]
  | cons p rest ih =>
    obtain ⟨v, l⟩ := p
    by_cases hvu : v = u
    · subst hvu
      rw [show addToBucket ((v, l) :: rest) v c = (v, l ++ [c]) :: rest by
        simp [addToBucket]]
      by_cases hvt : v = t <;> simp [bucketGet_cons, hvt]
    · rw [show addToBucket ((v, l) :: rest) u c = (v, l) :: addToBucket rest u c by
        simp [addToBucket, hvu]]
      by_cases hvt : v = t
      · have hut : u ≠ t := fun h => hvu (hvt.trans h.symm)
        simp [bucketGet_cons, hvt, hut]
      · simp [bucketGet_cons, hvt, ih]

/-- The bucket contents computed by the grouping loop are exactly the
commands governed by each tool id, in input order. -/
theorem bucketGet_foldl_groupStep (cmds : List Command) :
    ∀ (bs : List (ℤ × List Command)) (cur : Option ℤ) (t : ℤ),
      bucketGet (cmds.foldl groupStep (bs, cur)).1 t =
        bucketGet bs t ++
          (governedCmds cur cmds).filterMap
            (fun p => if p.1 = t then some p.2 else none) := by
  induction cmds with
  | nil => intro bs cur t; simp [governedCmds]
  | cons c rest ih =>
    intro bs cur t
    cases c with
    | SwitchTool u =>
      simpa [groupStep, governedCmds] using ih bs (some u) t
    | MoveTo x y =>
      cases cur with
      | none => simpa [groupStep, governedCmds] using ih bs none t
      | some u =>
        rw [show (Command.MoveTo x y :: rest).foldl groupStep (bs, some u) =
            rest.foldl groupStep (addToBucket bs u (Command.MoveTo x y), some u) from rfl,
          ih (addToBucket bs u (Command.MoveTo x y)) (some u) t, bucketGet_addToBucket]
        by_cases hut : u = t
        · subst hut; simp [governedCmds]
        · simp [governedCmds, hut]
    | ExtrudeTo x y =>
      cases cur with
      | none => simpa [groupStep, governedCmds] using ih bs none t
      | some u =>
        rw [show (Command.ExtrudeTo x y :: rest).foldl groupStep (bs, some u) =
            rest.foldl groupStep (addToBucket bs u (Command.ExtrudeTo x y), some u) from rfl,
          ih (addToBucket bs u (Command.ExtrudeTo x y)) (some u) t, bucketGet_addToBucket]
        by_cases hut : u = t
        · subst hut; simp [governedCmds]
        · simp [governedCmds, hut]

/-- Keys after `addToBucket`: the key list is unchanged if the key already
has a bucket, otherwise the key is appended. -/
theorem keys_addToBucket (bs : List (ℤ × List Command)) (u : ℤ) (c : Command) :
    (addToBucket bs u c).map Prod.fst =
      if u ∈ bs.map Prod.fst then bs.map Prod.fst else bs.map Prod.fst ++ [u] := by
  induction bs with
  | nil => simp [addToBucket]
  | cons p rest ih =>
    obtain ⟨v, l⟩ := p
    by_cases hvu : v = u
    · subst hvu
      simp [addToBucket]
    · have hvu2 : u ≠ v := fun h => hvu h.symm
      by_cases hmem : u ∈ rest.map Prod.fst <;>
        simp [addToBucket, hvu, hvu2, hmem, ih]

/-- The key list of the grouping loop's buckets stays duplicate-free. -/
theorem keys_foldl_groupStep_nodup (cmds : List Command) :
    ∀ (bs : List (ℤ × List Command)) (cur : Option ℤ),
      (bs.map Prod.fst).Nodup → ((cmds.foldl groupStep (bs, cur)).1.map Prod.fst).Nodup := by
  induction cmds with
  | nil => intro bs cur h; simpa using h
  | cons c rest ih =>
    intro bs cur h
    have haux : ∀ u c2, ((addToBucket bs u c2).map Prod.fst).Nodup := by
      intro u c2
      rw [keys_addToBucket]
      by_cases hmem : u ∈ bs.map Prod.fst
      · simpa [hmem] using h
      · rw [if_neg hmem]
        refine h.append (List.nodup_singleton u) ?_
        intro a ha hau
        rw [List.mem_singleton] at hau
        exact hmem (hau ▸ ha)
    cases c with
    | SwitchTool u => exact ih bs (some u) h
    | MoveTo x y =>
      cases cur with
      | none => exact ih bs none h
      | some u => exact ih _ (some u) (haux u _)
    | ExtrudeTo x y =>
      cases cur with
      | none => exact ih bs none h
      | some u => exact ih _ (some u) (haux u _)

/-- A tool id has a bucket after the grouping loop iff it had one before or
governs some command. -/
theorem keys_foldl_groupStep_mem (cmds : List Command) :
    ∀ (bs : List (ℤ × List Command)) (cur : Option ℤ) (t : ℤ),
      (t ∈ (cmds.foldl groupStep (bs, cur)).1.map Prod.fst ↔
        t ∈ bs.map Prod.fst ∨ t ∈ (governedCmds cur cmds).map Prod.fst) := by
  induction cmds with
  | nil => intro bs cur t; simp [governedCmds]
  | cons c rest ih =>
    intro bs cur t
    cases c with
    | SwitchTool u =>
      simpa [groupStep, governedCmds] using ih bs (some u) t
    | MoveTo x y =>
      cases cur with
      | none => simpa [groupStep, governedCmds] using ih bs none t
      | some u =>
        rw [show (Command.MoveTo x y :: rest).foldl groupStep (bs, some u) =
            rest.foldl groupStep (addToBucket bs u (Command.MoveTo x y), some u) from rfl,
          ih (addToBucket bs u (Command.MoveTo x y)) (some u) t, keys_addToBucket]
        by_cases hmem : u ∈ bs.map Prod.fst <;>
          by_cases hut : t = u <;>
          simp [governedCmds, hmem, hut]
    | ExtrudeTo x y =>
      cases cur with
      | none => simpa [groupStep, governedCmds] using ih bs none t
      | some u =>
        rw [show (Command.ExtrudeTo x y :: rest).foldl groupStep (bs, some u) =
            rest.foldl groupStep (addToBucket bs u (Command.ExtrudeTo x y), some u) from rfl,
          ih (addToBucket bs u (Command.ExtrudeTo x y)) (some u) t, keys_addToBucket]
        by_cases hmem : u ∈ bs.map Prod.fst <;>
          by_cases hut : t = u <;>
          simp [governedCmds, hmem, hut]

/-- Two strictly sorted integer lists with the same members are equal. -/
theorem sorted_lt_eq_of_mem_iff :
    ∀ {l1 l2 : List ℤ}, l1.Sorted (· < ·) → l2.Sorted (· < ·) →
      (∀ a, a ∈ l1 ↔ a ∈ l2) → l1 = l2 := by
  intro l1
  induction l1 with
  | nil =>
    intro l2 _ _ hm
    cases l2 with
    | nil => rfl
    | cons b t2 =>
      exact absurd ((hm b).2 (List.mem_cons_self b t2)) (List.not_mem_nil b)
  | cons a t1 ih =>
    intro l2 h1 h2 hm
    cases l2 with
    | nil => exact absurd ((hm a).1 (List.mem_cons_self a t1)) (List.not_mem_nil a)
    | cons b t2 =>
      rw [List.sorted_cons] at h1 h2
      have hab : a = b := by
        have ha := (hm a).1 (List.mem_cons_self a t1)
        have hb := (hm b).2 (List.mem_cons_self b t2)
        rw [List.mem_cons] at ha hb
        rcases ha with ha | ha
        · exact ha
        · rcases hb with hb | hb
          · exact hb.symm
          · exact absurd (h2.1 a ha) (not_lt.mpr (le_of_lt (h1.1 b hb)))
      subst hab
      have hm2 : ∀ x, x ∈ t1 ↔ x ∈ t2 := by
        intro x
        constructor
        · intro hx
          have hx2 := (hm x).1 (List.mem_cons_of_mem a hx)
          rw [List.mem_cons] at hx2
          rcases hx2 with hxa | hxa
          · exact absurd (h1.1 x hx) (by rw [hxa]; exact lt_irrefl a)
          · exact hxa
        · intro hx
          have hx2 := (hm x).2 (List.mem_cons_of_mem a hx)
          rw [List.mem_cons] at hx2
          rcases hx2 with hxa | hxa
          · exact absurd (h2.1 x hx) (by rw [hxa]; exact lt_irrefl a)
          · exact hxa
      rw [ih h1.2 h2.2 hm2]

/-- Commands annotated by `governedCmds` are never `SwitchTool`s. -/
theorem governedCmds_no_switch (cmds : List Command) :
    ∀ (cur : Option ℤ) (p : ℤ × Command), p ∈ governedCmds cur cmds →
      p.2.isSwitchTool = false := by
  induction cmds with
  | nil => intro cur p hp; simp [governedCmds] at hp
  | cons c rest ih =>
    intro cur p hp
    cases c with
    | SwitchTool u =>
      cases cur with
      | none => exact ih (some u) p (by simpa [governedCmds] using hp)
      | some w => exact ih (some u) p (by simpa [governedCmds] using hp)
    | MoveTo x y =>
      cases cur with
      | none => exact ih none p hp
      | some u =>
        rcases (by simpa [governedCmds] using hp : p = (u, Command.MoveTo x y) ∨
            p ∈ governedCmds (some u) rest) with h | h
        · subst h; rfl
        · exact ih (some u) p h
    | ExtrudeTo x y =>
      cases cur with
      | none => exact ih none p hp
      | some u =>
        rcases (by simpa [governedCmds] using hp : p = (u, Command.ExtrudeTo x y) ∨
            p ∈ governedCmds (some u) rest) with h | h
        · subst h; rfl
        · exact ih (some u) p h

/-- A command that is not a `SwitchTool` has no switch id. -/
theorem switchId_eq_none (c : Command) (h : c.isSwitchTool = false) :
    c.switchId = none := by
  cases c <;> simp_all [Command.isSwitchTool, Command.switchId]

/-- Extracting the switch ids of a per-tool grouped output whose buckets
contain no `SwitchTool` yields exactly the key list. -/
theorem filterMap_switchId_flatMap (ts : List ℤ) (f : ℤ → List Command)
    (hf : ∀ t c, c ∈ f t → Command.switchId c = none) :
    ((ts.flatMap fun t => Command.SwitchTool t :: f t).filterMap Command.switchId) = ts := by
  induction ts with
  | nil => simp
  | cons t rest ih =>
    have hnil : (f t).filterMap Command.switchId = [] :=
      List.filterMap_eq_nil.mpr fun c hc => hf t c hc
    simp [List.filterMap_append, List.filterMap_cons, Command.switchId, hnil, ih]

/-- Claim C3 (amended): `optimize_sort_tool` regroups the input by the tool
ids that govern at least one Move/Draw command (commands before the first
SelectTool have no governing tool and are dropped, as is any SelectTool that
governs no command): the output is exactly one `SwitchTool t` per such tool
id `t`, in ascending id order, immediately followed by all of tool `t`'s
Move/Draw commands in input order; consequently the switch ids appearing in
the output are strictly ascending and their number is the number of
governing tool ids. -/
theorem C3_tool_grouping (cmds : List Command) :
    optimize_sort_tool cmds =
      ((usedToolIds cmds).insertionSort (· ≤ ·)).flatMap
        (fun t => Command.SwitchTool t :: governedBy cmds t) ∧
    (optimize_sort_tool cmds).filterMap Command.switchId =
      (usedToolIds cmds).insertionSort (· ≤ ·) ∧
    ((optimize_sort_tool cmds).filterMap Command.switchId).Sorted (· < ·) ∧
    ((optimize_sort_tool cmds).filterMap Command.switchId).length =
      (usedToolIds cmds).length := by
  have hkeys_nodup : ((cmds.foldl groupStep ([], none)).1.map Prod.fst).Nodup :=
    keys_foldl_groupStep_nodup cmds [] none (by simp)
  have hkeys_mem : ∀ t, t ∈ (cmds.foldl groupStep ([], none)).1.map Prod.fst ↔
      t ∈ usedToolIds cmds := by
    intro t
    have h := keys_foldl_groupStep_mem cmds [] none t
    simp only [List.map_nil, List.not_mem_nil, false_or] at h
    rw [h, usedToolIds, List.mem_dedup]
  have hsorted_eq : ((cmds.foldl groupStep ([], none)).1.map Prod.fst).insertionSort (· ≤ ·) =
      (usedToolIds cmds).insertionSort (· ≤ ·) := by
    apply sorted_lt_eq_of_mem_iff
    · exact (List.sorted_insertionSort _ _).lt_of_le
        ((List.perm_insertionSort _ _).nodup_iff.mpr hkeys_nodup)
    · exact (List.sorted_insertionSort _ _).lt_of_le
        ((List.perm_insertionSort _ _).nodup_iff.mpr (List.nodup_dedup _))
    · intro a
      rw [(List.perm_insertionSort _ _).mem_iff, (List.perm_insertionSort _ _).mem_iff]
      exact hkeys_mem a
  have hbucket : ∀ t, bucketGet (cmds.foldl groupStep ([], none)).1 t = governedBy cmds t := by
    intro t
    have h := bucketGet_foldl_groupStep cmds [] none t
    simpa [bucketGet, governedBy] using h
  have hmain : optimize_sort_tool cmds =
      ((usedToolIds cmds).insertionSort (· ≤ ·)).flatMap
        (fun t => Command.SwitchTool t :: governedBy cmds t) := by
    rw [optimize_sort_tool, hsorted_eq]
    have hfun : (fun t => Command.SwitchTool t ::
          bucketGet (cmds.foldl groupStep ([], none)).1 t) =
        fun t => Command.SwitchTool t :: governedBy cmds t :=
      funext fun t => by rw [hbucket t]
    rw [hfun]
  have hswitch_none : ∀ t c, c ∈ governedBy cmds t → Command.switchId c = none := by
    intro t c hc
    rw [governedBy, List.mem_filterMap] at hc
    obtain ⟨p, hp, heq⟩ := hc
    by_cases hpt : p.1 = t
    · rw [if_pos hpt, Option.some_inj] at heq
      subst heq
      exact switchId_eq_none _ (governedCmds_no_switch cmds none p hp)
    · rw [if_neg hpt] at heq
      exact absurd heq (by simp)
  have hfilter : (optimize_sort_tool cmds).filterMap Command.switchId =
      (usedToolIds cmds).insertionSort (· ≤ ·) := by
    rw [hmain]
    exact filterMap_switchId_flatMap _ _ hswitch_none
  refine ⟨hmain, hfilter, ?_, ?_⟩
  · rw [hfilter]
    exact (List.sorted_insertionSort _ _).lt_of_le
      ((List.perm_insertionSort _ _).nodup_iff.mpr (List.nodup_dedup _))
  · rw [hfilter]
    exact (List.perm_insertionSort _ _).length_eq

/-- Claim C3 counterexample: the input `[SelectTool 0]` has one distinct
tool id among its SelectTool commands, but the output of
`optimize_sort_tool` is empty — a tool id that governs no Move/Draw command
produces no SelectTool in the output, so "K distinct tool ids in the input"
does not give K SelectTool commands in the output. -/
theorem C3_cex :
    distinctSwitchIds [Command.SwitchTool 0] = [0] ∧
    optimize_sort_tool [Command.SwitchTool 0] = [] := by
  constructor
  · rfl
  · rfl

/-- The selection loop returns `none` exactly on an empty unvisited list. -/
theorem selectClosest_eq_none (e : ℚ × ℚ) (l : List PathSegment) :
    selectClosest e l = none ↔ l = [] := by
  cases l with
  | nil => simp [selectClosest]
  | cons s r =>
    simp only [selectClosest]
    cases hr : selectClosest e r with
    | none => simp
    | some p =>
      obtain ⟨t, r2⟩ := p
      dsimp only
      split <;> simp

/-- The selection loop returns the unvisited segment with the strictly
closest start point (first found wins ties), together with the remaining
unvisited segments: the chosen segment and the rest are a permutation of the
input, and the chosen start is at minimum distance. -/
theorem selectClosest_some_spec (e : ℚ × ℚ) :
    ∀ (l : List PathSegment) (t : PathSegment) (rest : List PathSegment),
      selectClosest e l = some (t, rest) →
      (t :: rest).Perm l ∧
      ∀ u ∈ l, calculate_distance e t.start_point ≤ calculate_distance e u.start_point := by
  intro l
  induction l with
  | nil => intro t rest h; simp [selectClosest] at h
  | cons s r ih =>
    intro t rest h
    simp only [selectClosest] at h
    cases hr : selectClosest e r with
    | none =>
      rw [hr] at h
      dsimp only at h
      have hrnil : r = [] := (selectClosest_eq_none e r).1 hr
      subst hrnil
      simp only [Option.some.injEq, Prod.mk.injEq] at h
      obtain ⟨rfl, rfl⟩ := h
      refine ⟨List.Perm.refl _, ?_⟩
      intro u hu
      rcases List.mem_cons.1 hu with rfl | hu2
      · exact le_refl _
      · simp at hu2
    | some p =>
      obtain ⟨t2, r2⟩ := p
      rw [hr] at h
      dsimp only at h
      obtain ⟨hperm, hmin⟩ := ih t2 r2 hr
      by_cases hlt : calculate_distance e t2.start_point <
          calculate_distance e s.start_point
      · rw [if_pos hlt] at h
        simp only [Option.some.injEq, Prod.mk.injEq] at h
        obtain ⟨rfl, rfl⟩ := h
        refine ⟨?_, ?_⟩
        · exact (List.Perm.swap s t2 r2).trans (hperm.cons s)
        · intro u hu
          rcases List.mem_cons.1 hu with rfl | hu2
          · exact le_of_lt hlt
          · exact hmin u hu2
      · rw [if_neg hlt] at h
        simp only [Option.some.injEq, Prod.mk.injEq] at h
        obtain ⟨rfl, rfl⟩ := h
        refine ⟨List.Perm.refl _, ?_⟩
        intro u hu
        rcases List.mem_cons.1 hu with rfl | hu2
        · exact le_refl _
        · exact le_trans (not_lt.1 hlt) (hmin u hu2)

/-- The greedy loop visits exactly the unvisited segments (a permutation)
and each hop goes to the closest remaining start point. -/
theorem greedyLoop_spec : ∀ (fuel : ℕ) (e : ℚ × ℚ) (l : List PathSegment),
    l.length ≤ fuel →
    (greedyLoop fuel e l).Perm l ∧ LocallyGreedy e (greedyLoop fuel e l) := by
  intro fuel
  induction fuel with
  | zero =>
    intro e l hl
    have hnil : l = [] := List.length_eq_zero.1 (Nat.le_zero.1 hl)
    subst hnil
    exact ⟨by simp [greedyLoop], by simp [greedyLoop, LocallyGreedy]⟩
  | succ fuel ih =>
    intro e l hl
    cases l with
    | nil => exact ⟨by simp [greedyLoop], by simp [greedyLoop, LocallyGreedy]⟩
    | cons s r =>
      cases hsel : selectClosest e (s :: r) with
      | none => exact absurd ((selectClosest_eq_none e _).1 hsel) (by simp)
      | some p =>
        obtain ⟨t, rest⟩ := p
        have hgl : greedyLoop (fuel + 1) e (s :: r) =
            t :: greedyLoop fuel t.end_point rest := by
          simp [greedyLoop, hsel]
        obtain ⟨hperm, hmin⟩ := selectClosest_some_spec e (s :: r) t rest hsel
        have hrest_len : rest.length ≤ fuel := by
          have hlen := hperm.length_eq
          simp only [List.length_cons] at hlen hl
          omega
        obtain ⟨hp2, hlg2⟩ := ih t.end_point rest hrest_len
        refine ⟨?_, ?_⟩
        · rw [hgl]; exact (hp2.cons t).trans hperm
        · rw [hgl]
          refine ⟨?_, hlg2⟩
          intro u hu
          rcases List.mem_cons.1 hu with rfl | hu2
          · exact le_refl _
          · exact hmin u (hperm.mem_iff.1 (List.mem_cons_of_mem t (hp2.mem_iff.1 hu2)))

/-- Claim C2 (amended): the greedy reordering visits exactly the split
segments — a permutation starting with the first segment — and each hop is
locally optimal: every visited segment's start is the Euclidean-closest
among all segments visited after it.  (The total travel distance of the
output is *not* in general bounded by that of the identity ordering.) -/
theorem C2_greedy_locally_optimal (cmds : List Command) :
    (greedyOrder (splitPaths cmds)).Perm (splitPaths cmds) ∧
    (greedyOrder (splitPaths cmds)).head? = (splitPaths cmds).head? ∧
    GreedyFromFirst (greedyOrder (splitPaths cmds)) ∧
    optimize_sort_path cmds = (greedyOrder (splitPaths cmds)).flatMap
      PathSegment.commands := by
  have key : ∀ l : List PathSegment, (greedyOrder l).Perm l ∧
      (greedyOrder l).head? = l.head? ∧ GreedyFromFirst (greedyOrder l) := by
    intro l
    cases l with
    | nil =>
      exact ⟨by simp [greedyOrder], by simp [greedyOrder],
        by simp [greedyOrder, GreedyFromFirst]⟩
    | cons p rest =>
      obtain ⟨h1, h2⟩ := greedyLoop_spec rest.length p.end_point rest (le_refl _)
      refine ⟨?_, ?_, ?_⟩
      · simpa [greedyOrder] using h1.cons p
      · simp [greedyOrder]
      · simpa [greedyOrder, GreedyFromFirst] using h2
  exact ⟨(key _).1, (key _).2.1, (key _).2.2, rfl⟩

/-- Distance between two points on the same horizontal line. -/
theorem calculate_distance_x (a b y : ℚ) :
    calculate_distance (a, y) (b, y) = |(a : ℝ) - (b : ℝ)| := by
  unfold calculate_distance
  simp [Real.sqrt_sq_eq_abs]

/-- The input of the greedy-reordering counterexample: three travel/draw
segments whose greedy visiting order travels further than the input order. -/
def c2ex : List Command := [cmdM 0 0, cmdM 10 0, cmdM 1 0, cmdD 100 0]

/-- First segment of `c2ex`: boundary `(0,0)`. -/
def segA : PathSegment := ⟨[cmdM 0 0], (0, 0), (0, 0)⟩

/-- Second segment of `c2ex`: boundary `(10,0)`. -/
def segB : PathSegment := ⟨[cmdM 10 0], (10, 0), (10, 0)⟩

/-- Third segment of `c2ex`: from `(1,0)` to `(100,0)`. -/
def segC : PathSegment := ⟨[cmdM 1 0, cmdD 100 0], (1, 0), (100, 0)⟩

/-- Claim C2 counterexample: on `c2ex` the greedy split yields three
segments; the identity order travels `10 + 9 = 19` while the greedy order
(first to the nearby start `(1,0)`, stranding itself at `(100,0)`) travels
`1 + 90 = 91`, so the output's boundary-to-boundary travel distance is *not*
bounded by that of the identity ordering. -/
theorem C2_cex :
    2 ≤ (splitPaths c2ex).length ∧
    ¬ (segTravel (greedyOrder (splitPaths c2ex)) ≤ segTravel (splitPaths c2ex)) := by
  have hsplit : splitPaths c2ex = [segA, segB, segC] := by decide
  have dAC : calculate_distance segA.end_point segC.start_point = 1 := by
    simp only [segA, segC]
    rw [calculate_distance_x]
    norm_num
  have dAB : calculate_distance segA.end_point segB.start_point = 10 := by
    simp only [segA, segB]
    rw [calculate_distance_x]
    norm_num
  have dBC : calculate_distance segB.end_point segC.start_point = 9 := by
    simp only [segB, segC]
    rw [calculate_distance_x]
    norm_num
  have dCB : calculate_distance segC.end_point segB.start_point = 90 := by
    simp only [segC, segB]
    rw [calculate_distance_x]
    norm_num
  have hselC : selectClosest segA.end_point [segB, segC] = some (segC, [segB]) := by
    simp only [selectClosest]
    rw [dAC, dAB, if_pos (by norm_num)]
  have hselB : selectClosest segC.end_point [segB] = some (segB, []) := by
    simp only [selectClosest]
  have hgreedy : greedyOrder (splitPaths c2ex) = [segA, segC, segB] := by
    rw [hsplit]
    simp only [greedyOrder, List.length_cons, List.length_nil]
    rw [show (0 : ℕ) + 1 + 1 = 2 from rfl]
    rw [show (2 : ℕ) = 1 + 1 from rfl]
    simp only [greedyLoop, hselC, hselB]
  refine ⟨by rw [hsplit]; simp, ?_⟩
  rw [hgreedy, hsplit]
  simp only [segTravel]
  rw [dAC, dCB, dAB, dBC]
  norm_num

/-- The greedy order is a permutation of the split segments. -/
theorem greedyOrder_perm (l : List PathSegment) : (greedyOrder l).Perm l := by
  cases l with
  | nil => simp [greedyOrder]
  | cons p rest =>
    simpa [greedyOrder] using
      ((greedyLoop_spec rest.length p.end_point rest (le_refl _)).1.cons p)

/-- Closing a segment preserves "no kept segment contains a `SwitchTool`":
a kept segment needs a `MoveTo` for its start point, and a segment whose
head is a `SwitchTool` never contains one (its tail is all draws). -/
theorem closeSegment_no_switch (paths : List PathSegment) (current : List Command)
    (hp : ∀ seg ∈ paths, ∀ c ∈ seg.commands, c.isSwitchTool = false)
    (hc : ∀ c ∈ current.drop 1, c.isExtrudeTo = true) :
    ∀ seg ∈ closeSegment paths current, ∀ c ∈ seg.commands, c.isSwitchTool = false := by
  intro seg hseg c hcmd
  unfold closeSegment at hseg
  by_cases hemp : current.isEmpty
  · rw [if_pos hemp] at hseg
    exact hp seg hseg c hcmd
  · rw [if_neg hemp] at hseg
    cases hsp : (current.find? Command.isMoveTo).bind get_point with
    | none =>
      rw [hsp] at hseg
      cases hep : current.getLast?.bind get_point <;>
        (rw [hep] at hseg; exact hp seg hseg c hcmd)
    | some sp =>
      rw [hsp] at hseg
      cases hep : current.getLast?.bind get_point with
      | none =>
        rw [hep] at hseg
        exact hp seg hseg c hcmd
      | some ep =>
        rw [hep] at hseg
        rw [List.mem_append] at hseg
        rcases hseg with hseg | hseg
        · exact hp seg hseg c hcmd
        · rw [List.mem_singleton] at hseg
          subst hseg
          -- c is a command of the kept segment, i.e. of `current`
          cases hcur : current with
          | nil => subst hcur; simp at hemp
          | cons h0 tl =>
            subst hcur
            cases c with
            | MoveTo x y => rfl
            | ExtrudeTo x y => rfl
            | SwitchTool u =>
              rcases List.mem_cons.1 hcmd with hch | hct
              · -- head is a SwitchTool: then no MoveTo exists and sp is none
                have hfind : (h0 :: tl).find? Command.isMoveTo = none := by
                  rw [List.find?_eq_none]
                  intro x hx
                  rcases List.mem_cons.1 hx with rfl | hxt
                  · rw [← hch]
                    simp [Command.isMoveTo]
                  · have hxe := hc x (by simpa using hxt)
                    cases x <;> simp_all [Command.isExtrudeTo, Command.isMoveTo]
                rw [hfind] at hsp
                simp at hsp
              · have hxe := hc (Command.SwitchTool u) (by simpa using hct)
                simp [Command.isExtrudeTo] at hxe

/-- Every segment produced by the splitting phase of `optimize_sort_path`
contains no `SwitchTool` command. -/
theorem splitPaths_no_switch (cmds : List Command) :
    ∀ seg ∈ splitPaths cmds, ∀ c ∈ seg.commands, c.isSwitchTool = false := by
  suffices h : ∀ (l : List Command) (paths : List PathSegment) (current : List Command),
      (∀ seg ∈ paths, ∀ c ∈ seg.commands, c.isSwitchTool = false) →
      (∀ c ∈ current.drop 1, c.isExtrudeTo = true) →
      (∀ seg ∈ (l.foldl splitStep (paths, current)).1, ∀ c ∈ seg.commands,
        c.isSwitchTool = false) ∧
      (∀ c ∈ (l.foldl splitStep (paths, current)).2.drop 1, c.isExtrudeTo = true) by
    intro seg hseg
    unfold splitPaths at hseg
    obtain ⟨h1, h2⟩ := h cmds [] [] (by simp) (by simp)
    exact closeSegment_no_switch _ _ h1 h2 seg hseg
  intro l
  induction l with
  | nil => intro paths current h1 h2; exact ⟨h1, h2⟩
  | cons c rest ih =>
    intro paths current h1 h2
    cases c with
    | SwitchTool u =>
      exact ih (closeSegment paths current) [Command.SwitchTool u]
        (closeSegment_no_switch paths current h1 h2) (by simp)
    | MoveTo x y =>
      exact ih (closeSegment paths current) [Command.MoveTo x y]
        (closeSegment_no_switch paths current h1 h2) (by simp)
    | ExtrudeTo x y =>
      refine ih paths (current ++ [Command.ExtrudeTo x y]) h1 ?_
      intro d hd
      cases current with
      | nil => simp at hd
      | cons h0 tl =>
        rw [List.cons_append, List.drop_one, List.tail_cons, List.mem_append] at hd
        rcases hd with hd | hd
        · exact h2 d (by simpa using hd)
        · rw [List.mem_singleton] at hd
          subst hd
          rfl

/-- No `SwitchTool` survives `optimize_sort_path`. -/
theorem sort_path_no_switch (cmds : List Command) :
    ∀ c ∈ optimize_sort_path cmds, c.isSwitchTool = false := by
  intro c hc
  unfold optimize_sort_path at hc
  rw [List.mem_flatMap] at hc
  obtain ⟨seg, hseg, hc2⟩ := hc
  exact splitPaths_no_switch cmds seg
    ((greedyOrder_perm (splitPaths cmds)).mem_iff.1 hseg) c hc2

/-- Claim C9: a `SelectTool` immediately followed by a `Move` boundary forms
a segment with no extractable point, and such a segment is discarded by
`optimize_sort_path`: none of its commands (here, the `SelectTool` itself)
appears in the output. -/
theorem C9_pointless_segment_discarded (cmds : List Command) (i : ℕ) (t : ℤ)
    (hi : cmds.get? i = some (Command.SwitchTool t))
    (hnext : ∃ x y, cmds.get? (i + 1) = some (Command.MoveTo x y)) :
    Command.SwitchTool t ∉ optimize_sort_path cmds := by
  intro hmem
  have h := sort_path_no_switch cmds _ hmem
  simp [Command.isSwitchTool] at h

/-- Witness for C9: `SelectTool 3` directly followed by `Move(0,0)` is
absent from the reordered output. -/
theorem C9_witness :
    Command.SwitchTool 3 ∉ optimize_sort_path [Command.SwitchTool 3, cmdM 0 0] :=
  C9_pointless_segment_discarded [Command.SwitchTool 3, cmdM 0 0] 0 3 rfl
    ⟨⟨0⟩, ⟨0⟩, rfl⟩

/-- Flatness invariant of the scheduler's queue: every point starts at the
sum of the durations of the points before it. -/
def FlatTimeline (l : List TimedControlPoint) : Prop :=
  ∀ i, (h : i < l.length) → l[i].start_time = sumDur (l.take i)

/-- The claim-level reading of the timeline invariant: consecutive start
times differ by the previous duration, and the first point starts at 0. -/
def FlatClaim (l : List TimedControlPoint) : Prop :=
  (∀ i, (h : i + 1 < l.length) →
    l[i + 1].start_time = l[i].start_time + l[i].duration) ∧
  ∀ h : 0 < l.length, l[0].start_time = 0

/-- Appending a point that starts at the current total duration preserves
flatness. -/
theorem FlatTimeline_append (l : List TimedControlPoint) (tp : TimedControlPoint)
    (hf : FlatTimeline l) (hstart : tp.start_time = sumDur l) :
    FlatTimeline (l ++ [tp]) := by
  intro i h
  rcases lt_or_eq_of_le (Nat.lt_succ_iff.1 (by simpa using h)) with hi | hi
  · rw [List.getElem_append_left hi, List.take_append_of_le_length (le_of_lt hi)]
    exact hf i hi
  · subst hi
    rw [List.getElem_append_right (le_refl _)]
    simp [hstart, List.take_left]

/-- Flatness implies the claim-level invariant. -/
theorem FlatTimeline.claim {l : List TimedControlPoint} (hf : FlatTimeline l) :
    FlatClaim l := by
  constructor
  · intro i h
    have hi : i < l.length := by omega
    have htake : l.take (i + 1) = l.take i ++ [l[i]] := by
      rw [List.take_succ, List.getElem?_eq_getElem hi]
      rfl
    rw [hf (i + 1) h, hf i hi]
    unfold sumDur
    rw [htake, List.map_append, List.sum_append]
    simp
  · intro h
    rw [hf 0 h]
    simp [sumDur]

/-- `_add_retraction_move` preserves flatness. -/
theorem add_retraction_move_flat (p : Printer)
    (hf : FlatTimeline p.timed_control_points) :
    FlatTimeline (p.add_retraction_move).timed_control_points := by
  unfold Printer.add_retraction_move
  exact FlatTimeline_append _ _ hf rfl

/-- `_add_prime_move` preserves flatness. -/
theorem add_prime_move_flat (p : Printer)
    (hf : FlatTimeline p.timed_control_points) :
    FlatTimeline (p.add_prime_move).timed_control_points := by
  unfold Printer.add_prime_move
  exact FlatTimeline_append _ _ hf rfl

/-- `ingress_command` preserves flatness: every appended point (synthetic or
motion) starts at the sum of the durations already queued. -/
theorem ingress_command_flat (p : Printer) (x y : Distance) (e : Bool)
    (hf : FlatTimeline p.timed_control_points) :
    FlatTimeline (p.ingress_command x y e).timed_control_points := by
  unfold Printer.ingress_command
  dsimp only
  split_ifs <;>
    first
      | exact hf
      | exact add_retraction_move_flat p hf
      | exact add_prime_move_flat p hf
      | exact add_prime_move_flat _ (add_retraction_move_flat p hf)
      | exact FlatTimeline_append _ _ hf rfl
      | exact FlatTimeline_append _ _ (add_retraction_move_flat p hf) rfl
      | exact FlatTimeline_append _ _ (add_prime_move_flat p hf) rfl
      | exact FlatTimeline_append _ _
          (add_prime_move_flat _ (add_retraction_move_flat p hf)) rfl

/-- Running ingress calls preserves flatness. -/
theorem ingressRun_flat : ∀ (calls : List IngressCall) (p : Printer),
    FlatTimeline p.timed_control_points →
    FlatTimeline (p.ingressRun calls).timed_control_points := by
  intro calls
  induction calls with
  | nil => intro p hf; exact hf
  | cons c rest ih =>
    intro p hf
    exact ih _ (ingress_command_flat p c.x c.y c.should_extrude hf)

/-- Claim C1: for every sequence of ingress calls on a freshly constructed
scheduler (synthetic retraction and priming points included), the resulting
`TimedControlPoint` list is a flat, non-overlapping timeline: the start time
of point `i+1` is the start time of point `i` plus its duration, and the
first point starts at time 0. -/
theorem C1_flat_timeline (flow_rate : ℝ) (timing : ToolTiming)
    (calls : List IngressCall) :
    FlatClaim ((Printer.fresh flow_rate timing).ingressRun calls).timed_control_points := by
  have hf : FlatTimeline (Printer.fresh flow_rate timing).timed_control_points := by
    intro i h
    simp [Printer.fresh] at h
  exact (ingressRun_flat calls _ hf).claim

/-- The planar distance is nonzero iff some axis delta is nonzero. -/
theorem sqrt_delta_ne_zero (dx dy : ℤ) (h : ¬(dx = 0 ∧ dy = 0)) :
    Real.sqrt ((dx : ℝ) ^ 2 + (dy : ℝ) ^ 2) ≠ 0 := by
  have hpos : (0 : ℝ) < (dx : ℝ) ^ 2 + (dy : ℝ) ^ 2 := by
    rcases not_and_or.1 h with h | h
    · have hdx : (dx : ℝ) ≠ 0 := Int.cast_ne_zero.2 h
      positivity
    · have hdy : (dy : ℝ) ≠ 0 := Int.cast_ne_zero.2 h
      positivity
  exact ne_of_gt (Real.sqrt_pos.2 hpos)

/-- The synthetic retraction/priming prefix of an ingress call
(printer.py lines 129-135). -/
noncomputable def ingressSynth (p : Printer) (should_extrude : Bool) : Printer :=
  let p1 := if p.last_was_extrusion && !should_extrude then p.add_retraction_move else p
  if !p1.last_was_extrusion && should_extrude then p1.add_prime_move else p1

/-- The synthetic prefix leaves everything except the queues unchanged. -/
theorem ingressSynth_fields (p : Printer) (e : Bool) :
    (ingressSynth p e).last_was_extrusion = p.last_was_extrusion ∧
    (ingressSynth p e).tool = p.tool ∧
    (ingressSynth p e).tool_timing = p.tool_timing ∧
    (ingressSynth p e).step_x = p.step_x ∧
    (ingressSynth p e).step_y = p.step_y := by
  unfold ingressSynth Printer.add_retraction_move Printer.add_prime_move
  dsimp only
  split_ifs <;> exact ⟨rfl, rfl, rfl, rfl, rfl⟩

/-- After a draw, a travel call's synthetic prefix is exactly one
retraction move. -/
theorem ingressSynth_retract (p : Printer) (hlast : p.last_was_extrusion = true) :
    ingressSynth p false = p.add_retraction_move := by
  unfold ingressSynth
  simp [hlast]

/-- After a travel, a draw call's synthetic prefix is exactly one priming
move. -/
theorem ingressSynth_prime (p : Printer) (hlast : p.last_was_extrusion = false) :
    ingressSynth p true = p.add_prime_move := by
  unfold ingressSynth
  simp [hlast]

/-- `ingress_command` always sets the position to the target and leaves the
active tool and the timing configuration unchanged. -/
theorem ingress_command_state (p : Printer) (x y : Distance) (e : Bool) :
    (p.ingress_command x y e).step_x = targetX x ∧
    (p.ingress_command x y e).step_y = targetY y ∧
    (p.ingress_command x y e).tool = p.tool ∧
    (p.ingress_command x y e).tool_timing = p.tool_timing := by
  unfold Printer.ingress_command targetX targetY Printer.add_retraction_move
    Printer.add_prime_move
  dsimp only
  split_ifs <;> exact ⟨rfl, rfl, rfl, rfl⟩

/-- An ingress call with a nonzero planar delta appends the synthetic
prefix followed by exactly one motion point (not flagged as retraction) and
records the draw flag. -/
theorem ingress_command_ne_shape (p : Printer) (x y : Distance) (e : Bool)
    (hne : ¬(targetX x = p.step_x ∧ targetY y = p.step_y)) :
    ∃ mv : TimedControlPoint,
      (p.ingress_command x y e).timed_control_points =
        (ingressSynth p e).timed_control_points ++ [mv] ∧
      mv.is_retraction = false ∧
      (p.ingress_command x y e).last_was_extrusion = e := by
  have hd : ¬(targetX x - p.step_x = 0 ∧ targetY y - p.step_y = 0) := by
    rintro ⟨hd1, hd2⟩
    exact hne ⟨by omega, by omega⟩
  unfold Printer.ingress_command ingressSynth
  dsimp only
  rw [if_neg (sqrt_delta_ne_zero _ _ hd)]
  exact ⟨_, rfl, rfl, rfl⟩

/-- An ingress call with a zero planar delta only appends the synthetic
prefix (and re-writes the position); in particular it does not update
`last_was_extrusion`. -/
theorem ingress_command_zero (p : Printer) (x y : Distance) (e : Bool)
    (hz : targetX x = p.step_x ∧ targetY y = p.step_y) :
    p.ingress_command x y e =
      { ingressSynth p e with step_x := targetX x, step_y := targetY y } := by
  have hdx : targetX x - p.step_x = 0 := by omega
  have hdy : targetY y - p.step_y = 0 := by omega
  unfold Printer.ingress_command ingressSynth
  dsimp only
  rw [hdx, hdy]
  norm_num

/-- A zero-millimetre distance converts to zero steps. -/
theorem to_steps_zero_mm (gear_ratio : ℝ) (spr : ℤ) :
    (⟨0⟩ : Distance).to_steps gear_ratio spr = 0 := by
  unfold Distance.to_steps pyint
  norm_num

/-- A distance of at least one millimetre converts to at least one step at
gear ratio 1 and 200 steps per rotation. -/
theorem to_steps_pos (d : Distance) (hd : 1 ≤ d.mm) : 1 ≤ d.to_steps 1 200 := by
  obtain ⟨hwl1, hwl2⟩ := worm_lead_bounds
  have h0 : (0 : ℝ) < worm_lead := by linarith
  have hx : (1 : ℝ) ≤ ((d.mm : ℝ) / worm_lead) * (200 : ℤ) * 1 := by
    rw [show ((d.mm : ℝ) / worm_lead) * (200 : ℤ) * 1 = (d.mm : ℝ) * 200 / worm_lead by
      push_cast; ring]
    rw [le_div_iff₀ h0]
    have : (1 : ℝ) ≤ (d.mm : ℝ) := by exact_mod_cast hd
    nlinarith
  unfold Distance.to_steps pyint
  rw [if_pos (le_trans zero_le_one hx)]
  exact Int.le_floor.2 (by simpa using hx)

/-- Claim C8: for a draw → travel → draw ingress sequence with nonzero
planar deltas (starting from a state that has just drawn), the scheduler
appends exactly one synthetic retraction point — tool steps
`-retractionDistance` at `retractionSpeed` — and exactly one priming point —
tool steps `+retractionDistance` at `retractionSpeed` — of equal magnitude,
both flagged `is_retraction`, both with zero axis motion. -/
theorem C8_retraction_symmetry (p : Printer) (xt yt xd yd : Distance)
    (hlast : p.last_was_extrusion = true)
    (h1 : ¬(targetX xt = p.step_x ∧ targetY yt = p.step_y))
    (h2 : ¬(targetX xd = targetX xt ∧ targetY yd = targetY yt)) :
    ((((p.ingress_command xt yt false).ingress_command xd yd true).timed_control_points.drop
        p.timed_control_points.length).filter (fun tp => tp.is_retraction)).map
      (fun tp => (tp.x.steps, tp.x.speed, tp.y.steps, tp.y.speed, tp.tool)) =
    [(0, 0, 0, 0, some ⟨Motor.tool p.tool, -p.tool_timing.retraction_distance,
        p.tool_timing.retraction_speed⟩),
     (0, 0, 0, 0, some ⟨Motor.tool p.tool, p.tool_timing.retraction_distance,
        p.tool_timing.retraction_speed⟩)] := by
  obtain ⟨mv1, htimed1, hretr1, hlast1⟩ := ingress_command_ne_shape p xt yt false h1
  rw [ingressSynth_retract p hlast] at htimed1
  have hstate1 := ingress_command_state p xt yt false
  have h2x : ¬(targetX xd = (p.ingress_command xt yt false).step_x ∧
      targetY yd = (p.ingress_command xt yt false).step_y) := by
    rw [hstate1.1, hstate1.2.1]
    exact h2
  obtain ⟨mv2, htimed2, hretr2, hlast2⟩ :=
    ingress_command_ne_shape (p.ingress_command xt yt false) xd yd true h2x
  rw [ingressSynth_prime _ hlast1] at htimed2
  rw [htimed2]
  unfold Printer.add_prime_move
  dsimp only
  rw [htimed1]
  unfold Printer.add_retraction_move
  dsimp only
  rw [hstate1.2.2.1, hstate1.2.2.2]
  simp only [List.append_assoc, List.singleton_append, List.cons_append,
    List.nil_append]
  rw [List.drop_left]
  simp [List.filter_cons, hretr1, hretr2]

/-- Claim C10: an ingress call whose target equals the current position
(zero planar delta) returns after appending only the synthetic retraction or
priming point, without updating `last_was_extrusion`; consequently, after a
draw, two consecutive zero-delta travel calls each append a retraction point
(and symmetrically two zero-delta draw calls after a travel each append a
priming point), rather than at most one per transition. -/
theorem C10_zero_delta (p : Printer) (x y : Distance)
    (hz : targetX x = p.step_x ∧ targetY y = p.step_y) :
    (∀ e, (p.ingress_command x y e).last_was_extrusion = p.last_was_extrusion) ∧
    (p.last_was_extrusion = true →
      (((p.ingress_command x y false).ingress_command x y false).timed_control_points.drop
          p.timed_control_points.length).map (fun tp => (tp.is_retraction, tp.tool)) =
      [(true, some ⟨Motor.tool p.tool, -p.tool_timing.retraction_distance,
          p.tool_timing.retraction_speed⟩),
       (true, some ⟨Motor.tool p.tool, -p.tool_timing.retraction_distance,
          p.tool_timing.retraction_speed⟩)]) ∧
    (p.last_was_extrusion = false →
      (((p.ingress_command x y true).ingress_command x y true).timed_control_points.drop
          p.timed_control_points.length).map (fun tp => (tp.is_retraction, tp.tool)) =
      [(true, some ⟨Motor.tool p.tool, p.tool_timing.retraction_distance,
          p.tool_timing.retraction_speed⟩),
       (true, some ⟨Motor.tool p.tool, p.tool_timing.retraction_distance,
          p.tool_timing.retraction_speed⟩)]) := by
  have hone : ∀ e, p.ingress_command x y e =
      { ingressSynth p e with step_x := targetX x, step_y := targetY y } :=
    fun e => ingress_command_zero p x y e hz
  refine ⟨?_, ?_, ?_⟩
  · intro e
    rw [hone e]
    exact (ingressSynth_fields p e).1
  · intro hlast
    have h1 : p.ingress_command x y false =
        { p.add_retraction_move with step_x := targetX x, step_y := targetY y } := by
      rw [hone false, ingressSynth_retract p hlast]
    have hr1last : (p.ingress_command x y false).last_was_extrusion = true := by
      rw [h1]; exact hlast
    have hz2 : targetX x = (p.ingress_command x y false).step_x ∧
        targetY y = (p.ingress_command x y false).step_y := by
      rw [h1]; exact ⟨rfl, rfl⟩
    have h2 := ingress_command_zero (p.ingress_command x y false) x y false hz2
    rw [h2, ingressSynth_retract _ hr1last, h1]
    unfold Printer.add_retraction_move
    dsimp only
    simp only [List.append_assoc, List.singleton_append, List.cons_append,
      List.nil_append]
    rw [List.drop_left]
    simp
  · intro hlast
    have h1 : p.ingress_command x y true =
        { p.add_prime_move with step_x := targetX x, step_y := targetY y } := by
      rw [hone true, ingressSynth_prime p hlast]
    have hr1last : (p.ingress_command x y true).last_was_extrusion = false := by
      rw [h1]; exact hlast
    have hz2 : targetX x = (p.ingress_command x y true).step_x ∧
        targetY y = (p.ingress_command x y true).step_y := by
      rw [h1]; exact ⟨rfl, rfl⟩
    have h2 := ingress_command_zero (p.ingress_command x y true) x y true hz2
    rw [h2, ingressSynth_prime _ hr1last, h1]
    unfold Printer.add_prime_move
    dsimp only
    simp only [List.append_assoc, List.singleton_append, List.cons_append,
      List.nil_append]
    rw [List.drop_left]
    simp

/-- A concrete scheduler state mid-draw, at step position `(5, 0)`, with
retraction distance 50 steps at speed 1000. -/
noncomputable def pTest : Printer :=
  { step_x := 5, step_y := 0, speed := 4000, tool := 0, flow_rate := 1,
    tool_timing := ⟨0.1, 0.05, 50, 1000⟩, control_points := [],
    timed_control_points := [], last_was_extrusion := true }

/-- The same state at step position `(0, 0)`. -/
noncomputable def pTest2 : Printer :=
  { step_x := 0, step_y := 0, speed := 4000, tool := 0, flow_rate := 1,
    tool_timing := ⟨0.1, 0.05, 50, 1000⟩, control_points := [],
    timed_control_points := [], last_was_extrusion := true }

/-- Witness for C8: a travel to `(0,0)` followed by a draw to `(8,0)` from
the mid-draw state `pTest` appends one `-50 @ 1000` retraction and one
`+50 @ 1000` priming point. -/
theorem C8_witness :
    ((((pTest.ingress_command ⟨0⟩ ⟨0⟩ false).ingress_command ⟨8⟩ ⟨0⟩ true).timed_control_points.drop
        pTest.timed_control_points.length).filter (fun tp => tp.is_retraction)).map
      (fun tp => (tp.x.steps, tp.x.speed, tp.y.steps, tp.y.speed, tp.tool)) =
    [(0, 0, 0, 0, some ⟨Motor.tool 0, -50, 1000⟩),
     (0, 0, 0, 0, some ⟨Motor.tool 0, 50, 1000⟩)] := by
  have htx0 : targetX (⟨0⟩ : Distance) = 0 := by
    unfold targetX
    rw [to_steps_zero_mm]
    ring
  have hty0 : targetY (⟨0⟩ : Distance) = 0 := by
    unfold targetY
    rw [to_steps_zero_mm]
  have h8 : 1 ≤ (⟨8⟩ : Distance).to_steps 1 200 := to_steps_pos ⟨8⟩ (by norm_num)
  have h := C8_retraction_symmetry pTest ⟨0⟩ ⟨0⟩ ⟨8⟩ ⟨0⟩ rfl
    (by
      rintro ⟨hx, hy⟩
      rw [htx0] at hx
      have hx5 : pTest.step_x = 5 := rfl
      omega)
    (by
      rintro ⟨hx, hy⟩
      rw [htx0] at hx
      unfold targetX at hx
      omega)
  simpa [pTest] using h

/-- Witness for C10: from the mid-draw state `pTest2`, two zero-delta
travel calls to `(0,0)` each append a retraction point. -/
theorem C10_witness :
    (((pTest2.ingress_command ⟨0⟩ ⟨0⟩ false).ingress_command ⟨0⟩ ⟨0⟩ false).timed_control_points.drop
        pTest2.timed_control_points.length).map (fun tp => (tp.is_retraction, tp.tool)) =
    [(true, some ⟨Motor.tool 0, -50, 1000⟩), (true, some ⟨Motor.tool 0, -50, 1000⟩)] := by
  have hz : targetX (⟨0⟩ : Distance) = pTest2.step_x ∧
      targetY (⟨0⟩ : Distance) = pTest2.step_y := by
    constructor
    · unfold targetX
      rw [to_steps_zero_mm]
      rfl
    · unfold targetY
      rw [to_steps_zero_mm]
      rfl
  have h := (C10_zero_delta pTest2 ⟨0⟩ ⟨0⟩ hz).2.1 rfl
  simpa [pTest2] using h

end Convention25
